import Mathlib

/-!
Verification of the kapi keyframe-animation engine (src/js/kapi.js) against
its natural-language specification.  The JavaScript source is shallowly
embedded: numbers become rationals, strings become Lean strings, objects
become structures or association lists, and the fallible keyframe-identifier
parser returns an Except value.  Source line numbers in the doc comments
refer to src/js/kapi.js.
-/

set_option maxRecDepth 4000

namespace Kapi

/-! ### JavaScript numeric helpers -/

/-- Truncation toward zero of a rational number, modelling JS parseInt(x, 10)
applied to an already-numeric value (the source uses this idiom to
integerize computed values, e.g. lines 2235, 2258).  Implemented as
truncating division of the numerator by the denominator so that it agrees
with ⌊q⌋ for q ≥ 0 and with ⌈q⌉ for q < 0.  parseInt stringifies its
argument first; for magnitudes below 1e-6 JS switches to exponential
notation, a corner that is not modelled. -/
def jsParseInt (q : ℚ) : ℤ := q.num.tdiv q.den

/-- jsParseInt for non-negative quantities, as a natural number. -/
def jsParseIntNat (q : ℚ) : ℕ := (jsParseInt q).toNat

/-! ### Keyframe identifier resolution (_getRealKeyframe, calcKeyframe) -/

/-- A keyframe identifier as accepted by _getRealKeyframe (lines 479-508):
either a plain JS number, or a string made of a decimal quantifier
optionally followed by a unit suffix.  The string form is modelled
pre-lexed: the value of the leading /^(\d|\.)+/ quantifier match is the
fraction quantNum / quantDen (a decimal literal always has such a value),
and unit is the trailing /\D+$/ match (none when the string is all
digits).  Number identifiers are modelled for the integral values the API
is used with; parseInt(n, 10) is the identity on them. -/
inductive KfIdentifier where
  | numId (n : ℤ)
  | strId (quantNum quantDen : ℕ) (unit : Option String)
  deriving DecidableEq, Repr

/-- calcKeyframe.ms (lines 100-102): keyframe position for an amount of
milliseconds, (num * fps) / 1000. -/
def calcKeyframeMs (fps : ℕ) (num : ℚ) : ℚ := num * fps / 1000

/-- calcKeyframe.s (lines 109-111): keyframe position for an amount of
seconds, num * fps. -/
def calcKeyframeS (fps : ℕ) (num : ℚ) : ℚ := num * fps

/-- _getRealKeyframe (lines 479-508).  A plain number is passed through
parseInt(., 10) (the identity on integers); a digit-only string is parsed
with parseInt (truncating at the decimal point, i.e. n / d in ℕ); a
recognized unit ("ms" or "s") applies the corresponding calcKeyframe
formula and truncates the result with parseInt(., 10) - the truncation of
the non-negative value (n/d)*fps is exactly natural division (n*fps)/d,
and of ((n/d)*fps)/1000 exactly (n*fps)/(1000*d) (proved as
getRealKeyframe_literal_spec below); an unrecognized unit throws
'Invalid keyframe identifier unit!'. -/
def getRealKeyframe (fps : ℕ) : KfIdentifier → Except String ℤ
  | .numId n => .ok n
  | .strId n d none => .ok ((n / d : ℕ) : ℤ)
  | .strId n d (some u) =>
      if u = "ms" then .ok ((n * fps / (1000 * d) : ℕ) : ℤ)
      else if u = "s" then .ok ((n * fps / d : ℕ) : ℤ)
      else .error "Invalid keyframe identifier unit!"

/-! ### Tick driver: reached-keyframe maintenance (_updateState core) -/

/-- Index of the last element of the list that is strictly below cf
(the backward scan of _getLatestKeyframeId, lines 691-695). -/
def lastIdxLt (cf : ℕ) : List ℕ → Option ℕ
  | [] => none
  | x :: xs =>
      match lastIdxLt cf xs with
      | some i => some (i + 1)
      | none => if x < cf then some 0 else none

/-- _getLatestKeyframeId (lines 679-698): the index of the most recent
keyframe that was started for the given current frame, -1 when the current
frame is already past the last keyframe of the lookup list. -/
def getLatestKeyframeId (cf : ℕ) (lookup : List ℕ) : ℤ :=
  if cf = 0 then 0
  else if lookup.getLast?.getD 0 < cf then -1
  else
    match lastIdxLt cf lookup with
    | some i => (i : ℤ)
    | none => (lookup.length : ℤ) - 1

/-- _getNextKeyframeId (lines 715-717). -/
def getNextKeyframeId (lookup : List ℕ) (latestKeyframeId : ℕ) : ℕ :=
  if latestKeyframeId = lookup.length - 1 then latestKeyframeId else latestKeyframeId + 1

/-- Lines 1648-1649 of _updateState: the id of the most recent keyframe
passed for the given current frame (falling back to _lastKeyframe, the
last entry of the global id list, when every keyframe is behind us). -/
def prevKeyframe (ks : List ℕ) (cf : ℕ) : ℕ :=
  let i := getLatestKeyframeId cf ks
  if i = -1 then ks.getLast?.getD 0
  else (ks.get? i.toNat).getD 0

/-- JS array index assignment arr[i] = v for i ≤ arr.length: in-range
assignment replaces, assignment one past the end appends (the only out-of-
range index the tick driver produces is i = arr.length, on an empty
reached list). -/
def jsSetElem (l : List ℕ) (i : ℕ) (v : ℕ) : List ℕ :=
  if i < l.length then l.set i v else l ++ [v]

/-- The per-tick reached-keyframe maintenance of _updateState
(lines 1645-1661), as a function of the current frame computed from the
clock (the claim ranges over arbitrary tick times, hence over arbitrary
current frames).  Takes the global sorted keyframe-id list ks, the
_reachedKeyframes list and the computed _currentFrame; returns the updated
_reachedKeyframes and the (possibly skip-corrected) _currentFrame that the
actors are then updated with.  In the correction branch the source stores
ks[li]; when li is out of range for ks the source would store undefined -
that situation is unreachable from the states the driver produces (reached
is always an initial segment of ks, proved below) and is modelled as a
no-op. -/
def updateStateStep (ks reached : List ℕ) (cf : ℕ) : List ℕ × ℕ :=
  let prev := prevKeyframe ks cf
  let reached1 := if reached.getLast?.getD 0 < prev then reached ++ [prev] else reached
  let li := reached1.length - 1
  if li < ks.length then
    let v := (ks.get? li).getD 0
    if reached1.get? li ≠ some v then (jsSetElem reached1 li v, v) else (reached1, cf)
  else (reached1, cf)

/-- Iterated ticks of the frame-maintenance step, one per entry of cfs
(each entry is the current frame a tick computed from the wall clock). -/
def runTicks (ks : List ℕ) (cfs : List ℕ) (reached : List ℕ) : List ℕ :=
  cfs.foldl (fun r cf => (updateStateStep ks r cf).1) reached

/-! ### Property values, modifiers and colors -/

/-- The four relative-modifier operators of the modifier table
(lines 120-136). -/
inductive ModOp where
  | addOp | subOp | mulOp | divOp
  deriving DecidableEq, Repr

/-- modifiers (lines 120-136): apply one number to another based on the
operator ("+=", "-=", "*=", "/=").  (JS division by zero gives Infinity;
rational division by zero gives 0; no claim divides by zero.) -/
def applyModifierOp : ModOp → ℚ → ℚ → ℚ
  | .addOp, original, amount => original + amount
  | .subOp, original, amount => original - amount
  | .mulOp, original, amount => original * amount
  | .divOp, original, amount => original / amount

/-- The JS typeof values relevant to property handling. -/
inductive JsType where
  | number | string | object
  deriving DecidableEq, Repr

/-- A keyframe property value: a number, a string (color strings and other
plain strings), a relative-modifier expression "op=amount" (a string in
the source, tagged here as the spec's section 9 recommends), or a
single-key custom-easing bag {easingName: value} (a JS object).
Zero-argument callback properties are not modelled (no claim exercises
them). -/
inductive PropVal where
  | num (x : ℚ)
  | str (s : String)
  | mod (op : ModOp) (amount : ℚ)
  | eased (easing : String) (v : PropVal)
  deriving DecidableEq, Repr

def jsTypeof : PropVal → JsType
  | .num _ => .number
  | .str _ => .string
  | .mod _ _ => .string
  | .eased _ _ => .object

/-- isDynamic (lines 396-398) restricted to the modelled values: modifier
expressions are dynamic (callbacks, the other dynamic kind, are not
modelled). -/
def isDynamicP : PropVal → Bool
  | .mod _ _ => true
  | _ => false

/-- removeWhitespace (lines 152-158): str.replace(/\s/g, ''). -/
def removeWhitespace (s : String) : String :=
  ⟨s.toList.filter (fun c => ¬ c.isWhitespace)⟩

def isHexDigitChar (c : Char) : Bool :=
  c.isDigit || ('a' ≤ c && c ≤ 'f') || ('A' ≤ c && c ≤ 'F')

/-- isHexString (lines 290-292): '#' followed by exactly 3 or exactly 6
hex digits, case-insensitive. -/
def isHexString (s : String) : Bool :=
  match s.toList with
  | '#' :: rest => (rest.length = 3 || rest.length = 6) && rest.all isHexDigitChar
  | _ => false

/-- Consume one or more decimal digits (the \d+ of the RGB regex). -/
def eatDigits1 : List Char → Option (List Char)
  | c :: rest => if c.isDigit then some (rest.dropWhile Char.isDigit) else none
  | [] => none

def eatChar (c : Char) : List Char → Option (List Char)
  | x :: rest => if x = c then some rest else none
  | [] => none

/-- isRGBString (lines 299-301): /^rgb\(\d+\s*,\d+\s*,\d+\s*\)\s*$/i. -/
def isRGBString (s : String) : Bool :=
  (do
    let cs ← match s.toList.map Char.toLower with
      | 'r' :: 'g' :: 'b' :: '(' :: r => some r
      | _ => none
    let cs ← eatDigits1 cs
    let cs ← eatChar ',' (cs.dropWhile Char.isWhitespace)
    let cs ← eatDigits1 cs
    let cs ← eatChar ',' (cs.dropWhile Char.isWhitespace)
    let cs ← eatDigits1 cs
    let cs ← eatChar ')' (cs.dropWhile Char.isWhitespace)
    if (cs.dropWhile Char.isWhitespace) = [] then some () else none).isSome

/-- isColorString (lines 308-310). -/
def isColorString (s : String) : Bool := isHexString s || isRGBString s

def hexDigitVal (c : Char) : ℕ :=
  if c.isDigit then c.toNat - '0'.toNat
  else if 'a' ≤ c && c ≤ 'f' then c.toNat - 'a'.toNat + 10
  else if 'A' ≤ c && c ≤ 'F' then c.toNat - 'A'.toNat + 10
  else 0

/-- hexToDec (lines 317-319): parseInt(hex, 16), which parses the longest
leading run of hex digits.  (An argument with no leading hex digit is NaN
in JS; every call site guards with a color check, so that corner collapses
to 0 here.) -/
def hexToDec (s : List Char) : ℕ :=
  (s.takeWhile isHexDigitChar).foldl (fun a c => 16 * a + hexDigitVal c) 0

/-- hexToRGBArr (lines 326-338): strip '#' characters, expand shorthand
3-digit notation, and parse the three 2-digit channel values. -/
def hexToRGBArr (hex : String) : List ℕ :=
  let cs := hex.toList.filter (· ≠ '#')
  let cs := match cs with
    | [a, b, c] => [a, a, b, b, c, c]
    | l => l
  [hexToDec (cs.take 2), hexToDec ((cs.drop 2).take 2), hexToDec ((cs.drop 4).take 2)]

/-- All maximal runs of decimal digits in a character list, as numbers
(str.match(/\d+/g) followed by unary +); the accumulator holds the run in
progress. -/
def digitRuns : List Char → Option ℕ → List ℕ
  | [], none => []
  | [], some n => [n]
  | c :: rest, acc =>
      if c.isDigit then digitRuns rest (some ((acc.getD 0) * 10 + (c.toNat - '0'.toNat)))
      else
        match acc with
        | some n => n :: digitRuns rest none
        | none => digitRuns rest none

/-- getRGBArr (lines 345-363): a '#...' string goes through hexToRGBArr, an
'rgb...' string has its three numbers extracted, any other string is
returned unchanged (inr).  (An 'rgb' string with fewer than three digit
runs produces NaN channels in JS; that corner - unreachable through the
color-guarded callers - is padded with 0 here.) -/
def getRGBArr (str : String) : List ℕ ⊕ String :=
  match str.toList with
  | '#' :: _ => .inl (hexToRGBArr str)
  | 'r' :: 'g' :: 'b' :: _ => .inl ((digitRuns str.toList none ++ [0, 0, 0]).take 3)
  | _ => .inr str

/-- hexToRGBStr (lines 370-380).  hexToRGBArr always yields three entries,
so the fallback arm is dead. -/
def hexToRGBStr (hexStr : String) : String :=
  if isRGBString hexStr then hexStr
  else
    match hexToRGBArr hexStr with
    | [r, g, b] => "rgb(" ++ toString r ++ "," ++ toString g ++ "," ++ toString b ++ ")"
    | _ => hexStr

/-- The color-canonicalization step of _normalizeActorAcrossKeyframes
(lines 585-607): a string property whose whitespace-stripped value is a
color string is rewritten to rgb(x,x,x) form. -/
def normalizeColorProp : PropVal → PropVal
  | .str s =>
      let t := removeWhitespace s
      if isColorString t then .str (hexToRGBStr t) else .str s
  | v => v

/-- isKeyframeableProp (lines 414-416): a number, a dynamic value, or a
color string. -/
def isKeyframeableProp : PropVal → Bool
  | .num _ => true
  | .str s => isColorString s
  | .mod _ _ => true
  | .eased _ _ => false

/-! ### Easing registry (kapi.tween) and applyEase -/

/-- kapi.tween.linear (lines 2458-2463): c * t / d + b. -/
def kapiLinear (t b c d : ℚ) : ℚ := c * t / d + b

/-- kapi.tween.easeInQuad (lines 2492-2495). -/
def kapiEaseInQuad (t b c d : ℚ) : ℚ := c * (t / d) * (t / d) + b

/-- kapi.tween.easeOutQuad (lines 2498-2501). -/
def kapiEaseOutQuad (t b c d : ℚ) : ℚ := -c * (t / d) * (t / d - 2) + b

/-- kapi.tween.easeInOutQuad (lines 2504-2511). -/
def kapiEaseInOutQuad (t b c d : ℚ) : ℚ :=
  let t1 := t / (d / 2)
  if t1 < 1 then c / 2 * t1 * t1 + b else -c / 2 * ((t1 - 1) * (t1 - 1 - 2) - 1) + b

/-- kapi.tween.easeInCubic (lines 2514-2517). -/
def kapiEaseInCubic (t b c d : ℚ) : ℚ := c * (t / d) * (t / d) * (t / d) + b

/-- kapi.tween.easeOutCubic (lines 2520-2524). -/
def kapiEaseOutCubic (t b c d : ℚ) : ℚ :=
  c * ((t / d - 1) * (t / d - 1) * (t / d - 1) + 1) + b

/-- The easing-formula table kapi.tween, restricted to the polynomial
formulas (the sine, exponential and circular entries involve
transcendental functions and are exercised by no claim); an unknown name
is absent, and callers replace it by linear. -/
def kapiTweenLookup : String → Option (ℚ → ℚ → ℚ → ℚ → ℚ)
  | "linear" => some kapiLinear
  | "easeInQuad" => some kapiEaseInQuad
  | "easeOutQuad" => some kapiEaseOutQuad
  | "easeInOutQuad" => some kapiEaseInOutQuad
  | "easeInCubic" => some kapiEaseInCubic
  | "easeOutCubic" => some kapiEaseOutCubic
  | _ => none

/-- applyEase (lines 230-238) with the current frame passed explicitly
(options.currentFrame in the source, with inst._currentFrame as the
fallback; the fallback quirk for a falsy 0 current frame concerns only the
immediate-action path and is not modelled).  When the current frame is
before the from-keyframe the source returns undefined (none).  A zero
keyframe distance is replaced by 1 (the || 1 of lines 233/235).  The
easing name is pre-validated by the caller (line 1271); an unknown name
here falls back to linear. -/
def applyEase (easing : String) (previousKeyframe nextKeyframe currProp nextProp
    currentFrame : ℚ) : Option ℚ :=
  if previousKeyframe ≤ currentFrame then
    some ((kapiTweenLookup easing).getD kapiLinear (currentFrame - previousKeyframe)
      currProp (nextProp - currProp)
      (if nextKeyframe - previousKeyframe = 0 then 1 else nextKeyframe - previousKeyframe))
  else none

/-! ### Dynamic-property resolution -/

/-- The keyframe history of one actor property: the actor's initial
parameter value for the property, the actor's sorted keyframe-id list
(_actorstateIndex) and the normalized value of the property at each of
those keyframes. -/
structure PropHistory where
  initialVal : PropVal
  keyframeIds : List ℕ
  vals : List PropVal
  deriving DecidableEq, Repr

/-- The backward walk of _calculateUncachedProperty (lines 1205-1241) on a
reversed history segment (most recent value first): modifiers accumulate
until the nearest static value (or, past the start, the initial parameter
value), then are applied in chronological order. -/
def resolveChain (initialVal : PropVal) : List PropVal → PropVal
  | [] => initialVal
  | v :: rest =>
      match v with
      | .mod op amt =>
          match resolveChain initialVal rest with
          | .num x => .num (applyModifierOp op x amt)
          | base => base
      | s => s

/-- _calculateUncachedProperty (lines 1190-1244) for a single property:
resolve the dynamic value at the latest keyframe by walking the actor's
keyframe history backward to the nearest static value, falling back to the
initial parameter bag, and applying the accumulated modifiers in
chronological order.  (Applying a modifier to a non-numeric base performs
JS string arithmetic in the source; the animation API produces numeric
modifier chains only, and the non-numeric corner keeps the base.) -/
def calculateUncachedProperty (h : PropHistory) (latestIdx : ℕ) : PropVal :=
  resolveChain h.initialVal ((h.vals.take (latestIdx + 1)).reverse)

def numVal : PropVal → ℚ
  | .num x => x
  | _ => 0

def strVal : PropVal → String
  | .str s => s
  | _ => ""

/-- Math.floor of an eased channel, as the source renders it into the rgb
string (line 1352); an undefined ease result renders as NaN. -/
def jsFloorStr : Option ℚ → String
  | some v => toString ⌊v⌋
  | none => "NaN"

/-- The color branch of _calculateCurrentFrameProps (lines 1346-1356):
split both color strings into channel triples, ease and floor each channel
independently, and reassemble 'rgb(a,b,c)'.  (A non-color string reaching
this branch makes the source iterate the string character-wise; that is
unreachable through the isKeyframeableProp guards and not modelled.) -/
def blendColorStrings (easing : String) (fromKeyframe toKeyframe : ℚ) (fs ts : String)
    (currentFrame : ℚ) : String :=
  match getRGBArr fs, getRGBArr ts with
  | .inl fa, .inl ta =>
      "rgb(" ++ String.intercalate ","
        ((List.range fa.length).map (fun i =>
          jsFloorStr (applyEase easing fromKeyframe toKeyframe ((fa.get? i).getD 0)
            ((ta.get? i).getD 0) currentFrame))) ++ ")"
  | _, _ => fs

/-- The per-property body of _calculateCurrentFrameProps (lines 1257-1367)
for one property of one actor, with the from/to keyframe-cache entries for
the property passed explicitly (inst._keyframeCache[actor].from/to, both
empty right after a cache flush or rotation into a fresh segment) and the
actor-level easing name as passed from _getActorState (the easing property
of the to-state; the empty string stands for undefined).  The final
extend(currentFrameProps, fromState) of line 1365 is folded in: branches
that leave the property unset return the raw from-value. -/
def calcCurrentFrameProp (h : PropHistory) (latestIdx : ℕ) (fromRaw toRaw : PropVal)
    (fromKeyframe toKeyframe : ℚ) (easing : String)
    (cacheFrom cacheTo : Option PropVal) (currentFrame : ℚ) : PropVal :=
  -- line 1271: unknown easing names fall back to linear
  let easing0 := if (kapiTweenLookup easing).isSome then easing else "linear"
  -- lines 1281-1289: a custom-ease bag on the from side: value extracted, name unused
  let fromProp1 := match fromRaw with
    | .eased _ v => v
    | v => v
  -- lines 1292-1299: use the cached resolved value, else resolve a dynamic value
  let fromProp := match cacheFrom with
    | some v => v
    | none => if isDynamicP fromProp1 then calculateUncachedProperty h latestIdx else fromProp1
  if isKeyframeableProp fromProp then
    -- lines 1307-1315: a custom-ease bag on the to side overrides the easing
    let easedTo : String × PropVal := match toRaw with
      | .eased e v => (if (kapiTweenLookup e).isSome then e else "linear", v)
      | v => (easing0, v)
    -- lines 1317-1328: cached resolved to-value, else apply a modifier to the from-value
    let toProp := match cacheTo with
      | some v => v
      | none =>
          match easedTo.2 with
          | .mod op amt =>
              match fromProp with
              | .num x => .num (applyModifierOp op x amt)
              | v => v
          | v => v
    if ¬ isKeyframeableProp toProp ∨ jsTypeof fromProp ≠ jsTypeof toProp then
      -- lines 1333-1336: hold the from-value when the to-value is unusable
      fromProp
    else if jsTypeof fromProp = JsType.string then
      .str (blendColorStrings easedTo.1 fromKeyframe toKeyframe (strVal fromProp)
        (strVal toProp) currentFrame)
    else
      match applyEase easedTo.1 fromKeyframe toKeyframe (numVal fromProp) (numVal toProp)
          currentFrame with
      | some v => .num v
      | none => fromRaw
  else fromRaw

/-- _getActorState (lines 1374-1431) restricted to one property of one
actor with given keyframe-cache entries: locate the bracketing keyframes
for the current frame and interpolate between them (the cache-rotation
bookkeeping of lines 1397-1422 rewrites state that is passed in
explicitly here); lastKeyframe is the engine-level _lastKeyframe.
Returns none when no keyframes remain in the loop for the actor (the
actor is then not drawn). -/
def getActorStateProp (h : PropHistory) (lastKeyframe : ℕ) (easing : String)
    (cacheFrom cacheTo : Option PropVal) (currentFrame : ℕ) : Option PropVal :=
  let latest := getLatestKeyframeId currentFrame h.keyframeIds
  if latest = -1 then none
  else
    let li := latest.toNat
    let ni := getNextKeyframeId h.keyframeIds li
    if li = ni ∧ 0 < lastKeyframe then none
    else
      some (calcCurrentFrameProp h li ((h.vals.get? li).getD (.num 0))
        ((h.vals.get? ni).getD (.num 0)) (((h.keyframeIds.get? li).getD 0 : ℕ) : ℚ)
        (((h.keyframeIds.get? ni).getD 0 : ℕ) : ℚ) easing cacheFrom cacheTo
        (currentFrame : ℚ))

/-! ### Timeline store: engine state and keyframe mutations -/

/-- Look up a key in a JS object modelled as an association list. -/
def alookup {α β : Type} [DecidableEq α] (k : α) : List (α × β) → Option β
  | [] => none
  | (k1, v) :: rest => if k1 = k then some v else alookup k rest

/-- obj[k] = v: replace the value at an existing key in place, else append
the new key. -/
def aset {α β : Type} [DecidableEq α] (k : α) (v : β) : List (α × β) → List (α × β)
  | [] => [(k, v)]
  | (k1, v1) :: rest => if k1 = k then (k1, v) :: rest else (k1, v1) :: aset k v rest

/-- delete obj[k]. -/
def aremove {α β : Type} [DecidableEq α] (k : α) : List (α × β) → List (α × β)
  | [] => []
  | (k1, v1) :: rest => if k1 = k then rest else (k1, v1) :: aremove k rest

/-- k in obj. -/
def hasKey {α β : Type} [DecidableEq α] (k : α) (l : List (α × β)) : Bool :=
  (alookup k l).isSome

/-- Remove the first occurrence of x (the splice-with-break idiom of
lines 958-970). -/
def removeFirst (x : ℕ) : List ℕ → List ℕ
  | [] => []
  | y :: rest => if y = x then rest else y :: removeFirst x rest

def insertSorted (x : ℕ) : List ℕ → List ℕ
  | [] => [x]
  | y :: rest => if x ≤ y then x :: y :: rest else y :: insertSorted x rest

/-- sortArrayNumerically (lines 279-283): sort ascending. -/
def sortArrayNumerically (l : List ℕ) : List ℕ := l.foldr insertSorted []

/-- _updateKeyframeIdsList (lines 514-525) and the identical add branch of
_updateActorStateIndex (lines 533-551): append the id if it is new, then
sort. -/
def updateKeyframeIdsList (keyframeId : ℕ) (ids : List ℕ) : List ℕ :=
  if keyframeId ∈ ids then ids else sortArrayNumerically (ids ++ [keyframeId])

/-- keyframes[k][actor] = state, at the actor-presence level. -/
def addActorOnce (a : ℕ) (l : List ℕ) : List ℕ := if a ∈ l then l else l ++ [a]

/-- The per-actor slice of _actorstateIndex: the actor's sorted keyframe-id
array plus the queue and reachedKeyframes properties the source hangs on
that array (lines 2062-2066).  Queue entries are reduced to their duration
field, the only queue datum the modelled operations touch. -/
structure ActorIdx where
  ids : List ℕ
  reached : List ℕ
  queue : List ℕ
  deriving DecidableEq, Repr

/-- A live-copy record (lines 1085-1089). -/
structure LiveCopyEntry where
  copyOf : ℕ
  originalKeyframeId : KfIdentifier
  originalKeyframeIdCopyOf : KfIdentifier
  deriving DecidableEq, Repr

/-- The Timeline Store slice of a kapi engine instance (lines 61-91), with
actor state bags abstracted to actor presence per keyframe (bag contents
live in the property-level model above) and originalStates keeping, per
keyframe and actor, the originally supplied identifier (the _keyframeID
recorded at line 773, which the framerate rescale re-resolves).
_lastKeyframe and _animationDuration are recomputed from the id list by
_updateAnimationDuration after every mutation, so they appear as the
derived functions lastKeyframe and animationDuration below. -/
structure EngineState where
  fps : ℕ
  keyframeIds : List ℕ
  reachedKeyframes : List ℕ
  keyframes : List (ℕ × List ℕ)
  originalStates : List (ℕ × List (ℕ × KfIdentifier))
  actorIndex : List (ℕ × ActorIdx)
  liveCopies : List (ℕ × List (ℕ × LiveCopyEntry))
  deriving DecidableEq, Repr

/-- _updateAnimationDuration (lines 668-672): _lastKeyframe is the last
entry of the sorted global id list (undefined, i.e. none, when there is
none). -/
def lastKeyframe (s : EngineState) : Option ℕ := s.keyframeIds.getLast?

/-- _updateAnimationDuration (lines 668-672): _animationDuration =
1000 * (_lastKeyframe / fps); none stands for the NaN produced when no
keyframe exists. -/
def animationDuration (s : EngineState) : Option ℚ :=
  (lastKeyframe s).map (fun l => 1000 * ((l : ℚ) / (s.fps : ℚ)))

/-- _updateLiveCopies (lines 619-637) at the presence level: every live
copy re-points the copy keyframe's state entry for the actor at the source
keyframe's entry; existence-wise the actor entry is (re)written at the
copy keyframe whenever that keyframe exists (a missing copy keyframe would
throw in the source and cannot arise through the API). -/
def updateLiveCopies (s : EngineState) : EngineState :=
  { s with keyframes :=
      s.liveCopies.foldl (fun kfs p =>
        p.2.foldl (fun kfs2 q =>
          match alookup q.1 kfs2 with
          | some entry => aset q.1 (addActorOnce p.1 entry) kfs2
          | none => kfs2) kfs) s.keyframes }

/-- actorObj.keyframe (lines 754-819) at the presence level: resolve the
identifier (aborting with no state change on an invalid identifier - the
try/catch of lines 775-782 - or on a negative id - the throw of line 785),
auto-create keyframe zero, store the actor's state and original state,
update the sorted global and per-actor id lists, and refresh live copies.
Property-bag normalization (lines 559-614) rewrites bag contents only,
which this level abstracts; _updateAnimationDuration maintains the derived
fields modelled by lastKeyframe/animationDuration.  keyframe() is a method
of actors created by add() (lines 2002-2080), hence unknown actors are
rejected up front. -/
def createKeyframe (s : EngineState) (a : ℕ) (ident : KfIdentifier) : EngineState :=
  if (alookup a s.actorIndex).isNone then s
  else
    match getRealKeyframe s.fps ident with
    | .error _ => s
    | .ok ki =>
      if ki < 0 then s
      else
        let k := ki.toNat
        -- lines 788-792: create keyframe zero if it was not done so already
        let s1 := if 0 < k ∧ ¬ (hasKey 0 s.keyframes = true) then
            { s with keyframes := aset 0 [] s.keyframes,
                     keyframeIds := 0 :: s.keyframeIds }
          else s
        -- lines 794-807: create the keyframe and original-state entries
        let s2 := { s1 with
          keyframes :=
            aset k (addActorOnce a ((alookup k s1.keyframes).getD [])) s1.keyframes,
          originalStates :=
            aset k (aset a ident ((alookup k s1.originalStates).getD []))
              s1.originalStates }
        -- _updateKeyframes (lines 655-663)
        let s3 := { s2 with keyframeIds := updateKeyframeIdsList k s2.keyframeIds }
        let s4 := match alookup a s3.actorIndex with
          | some idx =>
              let idx2 := { idx with ids := updateKeyframeIdsList k idx.ids }
              { s3 with actorIndex := aset a idx2 s3.actorIndex }
          | none => s3
        updateLiveCopies s4

/-- One step of the cascade loop of actorObj.remove (lines 990-995): a live
copy whose source is the removed keyframe is itself removed (through
recFn) and liveCopiesRemain is flagged; the hasOwnProperty re-check is
against the current (possibly already rewritten) live-copy map. -/
def cascadeStep (recFn : EngineState → ℕ → ℕ → EngineState) (a k : ℕ)
    (p : EngineState × Bool) (ck : ℕ) : EngineState × Bool :=
  match (alookup a p.1.liveCopies).bind (alookup ck) with
  | some e => if e.copyOf = k then (recFn p.1 a ck, true) else p
  | none => p

/-- Lines 941-942 of actorObj.remove: delete the actor's state and
original-state entries at the keyframe. -/
def removeStage1 (s : EngineState) (a k : ℕ) : EngineState :=
  { s with
    keyframes := aset k (removeFirst a ((alookup k s.keyframes).getD [])) s.keyframes,
    originalStates := match alookup k s.originalStates with
      | some m => aset k (aremove a m) s.originalStates
      | none => s.originalStates }

/-- Lines 944-971 of actorObj.remove: delete the keyframe itself when no
actor has state left at it - except keyframe zero, which is never deleted
(line 953) - splicing it out of the global id and reached lists. -/
def removeStage2 (s : EngineState) (k : ℕ) : EngineState :=
  let keyframeHasObjs := ((alookup k s.keyframes).getD []) ≠ []
  if ¬ keyframeHasObjs ∧ k ≠ 0 then
    { s with
      keyframes := aremove k s.keyframes,
      originalStates := aremove k s.originalStates,
      keyframeIds := removeFirst k s.keyframeIds,
      reachedKeyframes := removeFirst k s.reachedKeyframes }
  else s

/-- Lines 973-983 of actorObj.remove: splice the id out of the actor's
index, popping its reached list when the splice position allows
(lines 977-979; pop on an empty list is a no-op). -/
def removeStage3 (s : EngineState) (a k : ℕ) : EngineState :=
  match alookup a s.actorIndex with
  | some idx =>
      match idx.ids.findIdx? (· = k) with
      | some i =>
          let idx2 := { idx with
            ids := idx.ids.eraseIdx i,
            reached := if i ≤ idx.reached.length then idx.reached.dropLast
                       else idx.reached }
          { s with actorIndex := aset a idx2 s.actorIndex }
      | none => s
  | none => s

/-- Lines 985-988 of actorObj.remove: delete the actor's own live-copy
record at the removed keyframe. -/
def removeStage4 (s : EngineState) (a k : ℕ) : EngineState :=
  match alookup a s.liveCopies with
  | some m => { s with liveCopies := aset a (aremove k m) s.liveCopies }
  | none => s

/-- The body of actorObj.remove (lines 930-1014): when the actor has state
at the keyframe, run the four removal stages, cascade into live copies
whose source is the removed keyframe, and - when no cascade fired - delete
the actor's whole live-copy map (lines 997-999, faithful to the source
even though that also discards unrelated live copies).  Otherwise the
removal is a no-op (the failure is only logged, lines 1003-1011).
recFn performs the recursive removal for cascading live copies;
_updateAnimationDuration (line 1001) maintains the derived fields modelled
by lastKeyframe/animationDuration. -/
def removeKeyframeBody (recFn : EngineState → ℕ → ℕ → EngineState)
    (s : EngineState) (a k : ℕ) : EngineState :=
  if ((alookup k s.keyframes).getD []).contains a then
    let s4 := removeStage4 (removeStage3 (removeStage2 (removeStage1 s a k) k) a k) a k
    let copyKeys := ((alookup a s4.liveCopies).getD []).map (fun q => q.1)
    let res := copyKeys.foldl (cascadeStep recFn a k) (s4, false)
    if res.2 = false then { res.1 with liveCopies := aremove a res.1.liveCopies }
    else res.1
  else s

def removeKeyframeFuel : ℕ → EngineState → ℕ → ℕ → EngineState
  | 0, s, _, _ => s
  | fuel + 1, s, a, k => removeKeyframeBody (removeKeyframeFuel fuel) s a k

/-- Total number of live-copy records: each recursive call of a removal
deletes its own live-copy record before cascading further, so the count
plus one bounds the cascade depth. -/
def liveCopyCount (s : EngineState) : ℕ := (s.liveCopies.map (fun p => p.2.length)).sum

/-- actorObj.remove (lines 930-1014). -/
def removeKeyframe (s : EngineState) (a k : ℕ) : EngineState :=
  removeKeyframeFuel (liveCopyCount s + 1) s a k

/-- actorObj.removeAll (lines 1020-1028): while the actor has indexed
keyframes, remove the one at the last index.  Fueled by the index length:
each successful removal splices that id out, and on a corrupted state
(where the removal would be a no-op) the source would loop forever, which
the fuel cuts short. -/
def removeAllFuel : ℕ → EngineState → ℕ → EngineState
  | 0, s, _ => s
  | fuel + 1, s, a =>
      match alookup a s.actorIndex with
      | some idx =>
          match idx.ids.getLast? with
          | some k => removeAllFuel fuel (removeKeyframe s a k) a
          | none => s
      | none => s

def removeAllKf (s : EngineState) (a : ℕ) : EngineState :=
  removeAllFuel (((alookup a s.actorIndex).map (fun idx => idx.ids.length)).getD 0 + 1) s a

/-- removeAllKeyframes (lines 2156-2172): removeAll for every actor. -/
def removeAllKeyframes (s : EngineState) : EngineState :=
  (s.actorIndex.map (fun p => p.1)).foldl removeAllKf s

/-- actorObj.liveCopy (lines 1072-1103): record the alias (keyed by the
resolved copy position, storing the resolved source and both original
identifiers) and create an initially empty keyframe at the copy position;
when the actor has no state at the source keyframe nothing changes (the
failure is only logged).  A throwing identifier propagates with no state
change; a negative resolved position cannot arise through the API and is
truncated by toNat. -/
def liveCopyOp (s : EngineState) (a : ℕ) (identK identSrc : KfIdentifier) : EngineState :=
  match getRealKeyframe s.fps identK, getRealKeyframe s.fps identSrc with
  | .ok ki, .ok si =>
      let k := ki.toNat
      let src := si.toNat
      if ((alookup src s.keyframes).getD []).contains a then
        let m := (alookup a s.liveCopies).getD []
        let lc := aset a (aset k ⟨src, identK, identSrc⟩ m) s.liveCopies
        let s1 := { s with liveCopies := lc }
        createKeyframe s1 a (.numId (k : ℤ))
      else s
  | _, _ => s

/-- framerate (lines 2180-2265): with a positive new rate, set the rate,
save and remove every live-copy keyframe, save the index/original-state/
reached copies, drop all keyframes, re-add every keyframe from its
originally supplied identifier at the new rate (so time literals land on
rescaled ids while plain numeric ids stay), rescale queued action
durations, restore per-actor reached lists, recreate the live copies from
their original identifiers, and overwrite the global reached list with its
scaled saved copy.  A non-positive rate changes nothing (the getter
path). -/
def framerate (s : EngineState) (newFps : ℕ) : EngineState :=
  if 0 < newFps then
    let fpsChange : ℚ := (newFps : ℚ) / (s.fps : ℚ)
    let s := { s with fps := newFps }
    let savedLiveCopies := s.liveCopies
    let s := savedLiveCopies.foldl (fun st p =>
        p.2.foldl (fun st2 q => removeKeyframe st2 p.1 q.1) st) s
    let savedIndex := s.actorIndex
    let savedOrig := s.originalStates
    let savedReached := s.reachedKeyframes
    let s := removeAllKeyframes s
    let s := savedIndex.foldl (fun st p =>
        let st := p.2.ids.reverse.foldl (fun st2 kOld =>
            match (alookup kOld savedOrig).bind (alookup p.1) with
            | some ident => createKeyframe st2 p.1 ident
            | none => st2) st
        match alookup p.1 st.actorIndex with
        | some idx =>
            let idx2 := { idx with
              queue := idx.queue.map (fun dur => jsParseIntNat ((dur : ℚ) * fpsChange)),
              reached := p.2.reached }
            { st with actorIndex := aset p.1 idx2 st.actorIndex }
        | none => st) s
    let s := savedLiveCopies.foldl (fun st p =>
        let st := { st with liveCopies := aset p.1 [] st.liveCopies }
        p.2.foldl (fun st2 q =>
            liveCopyOp st2 p.1 q.2.originalKeyframeId q.2.originalKeyframeIdCopyOf) st) s
    { s with reachedKeyframes :=
        (savedReached.map (fun r => jsParseIntNat ((r : ℚ) * fpsChange))) ++
          s.reachedKeyframes.drop savedReached.length }
  else s

/-- A fresh engine (the inst literal of lines 61-91) with a set of already
added actors: add() (lines 2002-2080) creates the empty index, queue and
reached list (lines 2062-2066) and the empty live-copy map (line 2069)
for each actor. -/
def initEngine (fps : ℕ) (actors : List ℕ) : EngineState :=
  { fps := fps, keyframeIds := [], reachedKeyframes := [], keyframes := [],
    originalStates := [],
    actorIndex := actors.map (fun a => (a, ⟨[], [], []⟩)),
    liveCopies := actors.map (fun a => (a, [])) }

/-- A keyframe mutation: creation (actorObj.keyframe) or removal
(actorObj.remove), the operations claim C5 ranges over. -/
inductive TimelineMutation where
  | createKf (a : ℕ) (ident : KfIdentifier)
  | removeKf (a : ℕ) (k : ℕ)
  deriving DecidableEq, Repr

def applyMutation (s : EngineState) : TimelineMutation → EngineState
  | .createKf a ident => createKeyframe s a ident
  | .removeKf a k => removeKeyframe s a k

def applyMutations (s : EngineState) (muts : List TimelineMutation) : EngineState :=
  muts.foldl applyMutation s

/-- C5's invariant: keyframe id 0 exists whenever any keyframe id greater
than 0 exists. -/
def kfZeroInvariant (s : EngineState) : Prop :=
  (∃ p ∈ s.keyframes, 0 < p.1) → hasKey 0 s.keyframes = true

/-! ### Immediate-action queue: clearQueue -/

/-- JS array truncation arr.length = n: shorten to the first n entries, or
extend with undefined holes (none) up to n. -/
def jsSetArrayLength {α : Type} (q : List (Option α)) (n : ℕ) : List (Option α) :=
  if n ≤ q.length then q.take n else q ++ List.replicate (n - q.length) none

/-- actorObj.clearQueue (lines 882-887): queue.length = 1. -/
def clearQueue {α : Type} (q : List (Option α)) : List (Option α) :=
  jsSetArrayLength q 1

/-! ### gotoFrame -/

/-- The playback flags; both are undefined (none) before the first
play. -/
structure TickFlags where
  isStopped : Option Bool
  isPaused : Option Bool
  deriving DecidableEq, Repr

/-- isPlaying (lines 1811-1813): _isStopped === false and
_isPaused === false. -/
def isPlaying (f : TickFlags) : Bool :=
  f.isStopped == some false && f.isPaused == some false

/-- gotoFrame (lines 2272-2313) restricted to the playback flags, the
rendered frame and the reached-keyframe bookkeeping: stop when playing
(stop() sets _isStopped, line 1895; its queue/cache flushing acts on
state not represented here), wrap the resolved frame modulo _lastKeyframe
with the JS % operator (truncated remainder), and rebuild
_reachedKeyframes as the id-list slice up to the latest keyframe of the
wrapped frame (line 2286).  A throwing identifier propagates (none).
Returns the flags, the rendered frame and the rebuilt reached list. -/
def gotoFrame (f : TickFlags) (fps lastKf : ℕ) (keyframeIds : List ℕ)
    (ident : KfIdentifier) : Option (TickFlags × ℤ × List ℕ) :=
  let f1 := if isPlaying f then { f with isStopped := some true } else f
  match getRealKeyframe fps ident with
  | .error _ => none
  | .ok n =>
      let frame := n.tmod (lastKf : ℤ)
      some (f1, frame,
        keyframeIds.take ((getLatestKeyframeId frame.toNat keyframeIds) + 1).toNat)

/-! ### Concrete framerate scenarios -/

/-- An engine whose keyframes at ids 0, 10, 20 (at 20 fps) were created
from plain numeric identifiers 0, 10, 20. -/
def framerateNumericEngine : EngineState :=
  createKeyframe (createKeyframe (createKeyframe (initEngine 20 [1])
    1 (.numId 0)) 1 (.numId 10)) 1 (.numId 20)

/-- An engine whose keyframes at ids 0, 10, 20 (at 20 fps) were created
from the time literals 0, "0.5s", "1s". -/
def framerateLiteralEngine : EngineState :=
  createKeyframe (createKeyframe (createKeyframe (initEngine 20 [1])
    1 (.numId 0)) 1 (.strId 1 2 (some "s"))) 1 (.strId 1 1 (some "s"))

/-! ### Lemmas about the tick driver -/

theorem mem_le_getLastD {ks : List ℕ} (hs : ks.Pairwise (· < ·)) {a : ℕ} (ha : a ∈ ks) :
    a ≤ ks.getLast?.getD 0 := by
  induction ks with
  | nil => cases ha
  | cons x xs ih =>
    rcases List.mem_cons.mp ha with rfl | h
    · cases xs with
      | nil => simp [List.getLast?]
      | cons y ys =>
        have h1 : ∀ b ∈ y :: ys, a < b := (List.pairwise_cons.mp hs).1
        have h2 : (y :: ys).getLast? = some ((y :: ys).getLast (by simp)) :=
          List.getLast?_eq_getLast_of_ne_nil (by simp)
        have h3 : (y :: ys).getLast (by simp) ∈ y :: ys := List.getLast_mem _
        have := h1 _ h3
        rw [List.getLast?_cons_cons, h2]
        exact le_of_lt this
    · cases xs with
      | nil => cases h
      | cons y ys =>
        have h2 := ih (List.pairwise_cons.mp hs).2 h
        rwa [List.getLast?_cons_cons]

theorem lastIdxLt_lt_length {cf : ℕ} {ks : List ℕ} {i : ℕ} (h : lastIdxLt cf ks = some i) :
    i < ks.length := by
  induction ks generalizing i with
  | nil => simp [lastIdxLt] at h
  | cons x xs ih =>
    rw [lastIdxLt] at h
    cases hx : lastIdxLt cf xs with
    | some j =>
      rw [hx] at h
      cases h
      exact Nat.succ_lt_succ (ih hx)
    | none =>
      rw [hx] at h
      by_cases hlt : x < cf
      · rw [if_pos hlt] at h
        cases h
        simp
      · rw [if_neg hlt] at h
        cases h

theorem getLatestKeyframeId_bounds {cf : ℕ} {ks : List ℕ} (hne : ks ≠ [])
    (h : getLatestKeyframeId cf ks ≠ -1) :
    0 ≤ getLatestKeyframeId cf ks ∧ (getLatestKeyframeId cf ks).toNat < ks.length := by
  have hlen : 0 < ks.length := List.length_pos.mpr hne
  rw [getLatestKeyframeId] at h ⊢
  by_cases h0 : cf = 0
  · simp [h0, hlen]
  · rw [if_neg h0] at h ⊢
    by_cases h1 : ks.getLast?.getD 0 < cf
    · simp [h1] at h
    · rw [if_neg h1] at h ⊢
      cases hx : lastIdxLt cf ks with
      | some i =>
        simp only [hx]
        exact ⟨Int.ofNat_nonneg i, by simpa using lastIdxLt_lt_length hx⟩
      | none =>
        simp only [hx]
        constructor
        · omega
        · have : ((ks.length : ℤ) - 1).toNat = ks.length - 1 := by omega
          omega

theorem prevKeyframe_mem {ks : List ℕ} (hne : ks ≠ []) (cf : ℕ) :
    prevKeyframe ks cf ∈ ks := by
  rw [prevKeyframe]
  by_cases h : getLatestKeyframeId cf ks = -1
  · rw [if_pos h]
    have h2 : ks.getLast? = some (ks.getLast hne) := List.getLast?_eq_getLast_of_ne_nil hne
    rw [h2]
    exact List.getLast_mem hne
  · rw [if_neg h]
    obtain ⟨h0, hlt⟩ := getLatestKeyframeId_bounds hne h
    rw [List.get?_eq_getElem?, List.getElem?_eq_getElem hlt]
    exact List.getElem_mem _

theorem set_append_last {α : Type} (l : List α) (a b : α) :
    (l ++ [a]).set l.length b = l ++ [b] := by
  induction l with
  | nil => rfl
  | cons x xs ih => simp [ih]

/-- Core invariant of the tick driver: one maintenance step keeps the
reached-keyframe list an initial segment of the sorted keyframe-id list. -/
theorem updateStateStep_take (ks : List ℕ) (hne : ks ≠ []) (hs : ks.Pairwise (· < ·))
    (reached : List ℕ) (hr : reached = ks.take reached.length) (cf : ℕ) :
    (updateStateStep ks reached cf).1 = ks.take (updateStateStep ks reached cf).1.length := by
  have hlen0 : 0 < ks.length := List.length_pos.mpr hne
  have hnle : reached.length ≤ ks.length := by
    have := congrArg List.length hr
    simp only [List.length_take] at this
    omega
  simp only [updateStateStep]
  by_cases hpush : reached.getLast?.getD 0 < prevKeyframe ks cf
  · -- a new keyframe id is appended
    have hnlt : reached.length < ks.length := by
      rcases Nat.lt_or_ge reached.length ks.length with h | h
      · exact h
      · exfalso
        have heqr : reached = ks := by rw [hr, le_antisymm hnle h, List.take_length]
        rw [heqr] at hpush
        exact absurd hpush (not_lt.mpr (mem_le_getLastD hs (prevKeyframe_mem hne cf)))
    simp only [if_pos hpush]
    have hidx : (reached ++ [prevKeyframe ks cf]).length - 1 = reached.length := by simp
    rw [hidx, if_pos hnlt]
    have hget : ks.get? reached.length = some ks[reached.length] := by
      rw [List.get?_eq_getElem?, List.getElem?_eq_getElem hnlt]
    have hr1 : (reached ++ [prevKeyframe ks cf]).get? reached.length =
        some (prevKeyframe ks cf) := by
      rw [List.get?_eq_getElem?]
      exact List.getElem?_concat_length reached _
    rw [hget, hr1]
    simp only [Option.getD_some]
    have htake : ks.take (reached.length + 1) = reached ++ [ks[reached.length]] := by
      rw [List.take_succ, List.getElem?_eq_getElem hnlt, ← hr]
      rfl
    by_cases heq : prevKeyframe ks cf = ks[reached.length]
    · rw [if_neg (by simp [heq])]
      have hlen2 : (reached ++ [prevKeyframe ks cf]).length = reached.length + 1 := by simp
      rw [hlen2, htake, heq]
    · rw [if_pos (by simp [heq])]
      rw [jsSetElem]
      rw [if_pos (by simp), set_append_last]
      have hlen2 : (reached ++ [ks[reached.length]]).length = reached.length + 1 := by
        simp
      rw [hlen2, htake]
  · -- no append on this tick
    simp only [if_neg hpush]
    rcases Nat.eq_zero_or_pos reached.length with h0 | h1
    · -- empty reached list: the correction branch seeds it with ks[0]
      have hre : reached = [] := List.length_eq_zero.mp h0
      subst hre
      simp only [List.length_nil, Nat.zero_sub, if_pos hlen0]
      have hget : ks.get? 0 = some ks[0] := by
        rw [List.get?_eq_getElem?, List.getElem?_eq_getElem hlen0]
      rw [hget]
      simp only [Option.getD_some, List.get?_nil]
      rw [if_pos (by simp)]
      rw [jsSetElem]
      simp only [List.length_nil, lt_self_iff_false, if_false, List.nil_append]
      have ht1 : ks.take 1 = [ks[0]] := by
        rw [show (1 : ℕ) = 0 + 1 by rfl, List.take_succ, List.getElem?_eq_getElem hlen0]
        rfl
      simp [ht1]
    · -- nonempty reached list: its tail already matches the expected id
      have hn1 : reached.length - 1 < reached.length := Nat.sub_lt h1 Nat.one_pos
      have hn1k : reached.length - 1 < ks.length := lt_of_lt_of_le hn1 hnle
      rw [if_pos hn1k]
      have hget : ks.get? (reached.length - 1) = some ks[reached.length - 1] := by
        rw [List.get?_eq_getElem?, List.getElem?_eq_getElem hn1k]
      have hrget : reached.get? (reached.length - 1) = some ks[reached.length - 1] := by
        nth_rewrite 1 [hr]
        rw [List.get?_eq_getElem?, List.getElem?_take, if_pos hn1,
          List.getElem?_eq_getElem hn1k]
      rw [hget, hrget]
      rw [if_neg (by simp)]
      exact hr

/-- The initial-segment invariant carried through any sequence of ticks. -/
theorem runTicks_take (ks : List ℕ) (hne : ks ≠ []) (hs : ks.Pairwise (· < ·))
    (cfs : List ℕ) :
    ∀ reached, reached = ks.take reached.length →
      runTicks ks cfs reached = ks.take (runTicks ks cfs reached).length := by
  induction cfs with
  | nil => intro reached hr; exact hr
  | cons cf rest ih =>
    intro reached hr
    rw [runTicks, List.foldl_cons]
    exact ih _ (updateStateStep_take ks hne hs reached hr cf)

theorem getLastD_take {ks : List ℕ} {n : ℕ} (h1 : 0 < n) (h2 : n ≤ ks.length) :
    (ks.take n).getLast?.getD 0 = ks.get ⟨n - 1, by omega⟩ := by
  rw [List.getLast?_eq_getElem?, List.length_take, Nat.min_eq_left h2,
    List.getElem?_take, if_pos (Nat.sub_lt h1 Nat.one_pos),
    List.getElem?_eq_getElem (by omega)]
  rfl

theorem getLastD_eq_getElem {ks : List ℕ} (hne : ks ≠ []) :
    ks.getLast?.getD 0 =
      ks.get ⟨ks.length - 1, by simp [List.length_pos.mpr hne, Nat.sub_lt]⟩ := by
  rw [List.getLast?_eq_getElem?,
    List.getElem?_eq_getElem (by simp [List.length_pos.mpr hne, Nat.sub_lt])]
  rfl

/-- Once the clock is past the last keyframe id, prevKeyframe is the last
keyframe id itself (lines 1648-1649: _getLatestKeyframeId returns -1 and
_lastKeyframe is used instead). -/
theorem prevKeyframe_of_past (ks : List ℕ) (cf : ℕ) (hcf : ks.getLast?.getD 0 < cf) :
    prevKeyframe ks cf = ks.getLast?.getD 0 := by
  have h0 : cf ≠ 0 := by omega
  rw [prevKeyframe, getLatestKeyframeId, if_neg h0, if_pos hcf]
  rfl

/-- Progress: once the clock has passed the last keyframe id, each tick
extends the reached list by the next expected keyframe id until the list is
complete - so a full loop always covers every keyframe id, however coarse
or jittered the ticks are. -/
theorem updateStateStep_progress (ks : List ℕ) (hne : ks ≠ []) (hs : ks.Pairwise (· < ·))
    (reached : List ℕ) (hr : reached = ks.take reached.length)
    (hlt : reached.length < ks.length) (cf : ℕ) (hcf : ks.getLast?.getD 0 < cf) :
    (updateStateStep ks reached cf).1 = ks.take (reached.length + 1) := by
  have hstep := updateStateStep_take ks hne hs reached hr cf
  have hprev : prevKeyframe ks cf = ks.getLast?.getD 0 := prevKeyframe_of_past ks cf hcf
  have hlen : (updateStateStep ks reached cf).1.length = reached.length + 1 := by
    simp only [updateStateStep, hprev]
    by_cases hpush : reached.getLast?.getD 0 < ks.getLast?.getD 0
    · simp only [if_pos hpush]
      have hidx : (reached ++ [ks.getLast?.getD 0]).length - 1 = reached.length := by simp
      rw [hidx, if_pos hlt]
      split
      · rw [jsSetElem, if_pos (by simp)]
        simp
      · simp
    · -- no push is only possible when the reached list is empty
      rcases Nat.eq_zero_or_pos reached.length with h0 | h1
      · have hre : reached = [] := List.length_eq_zero.mp h0
        subst hre
        have hlen0 : 0 < ks.length := List.length_pos.mpr hne
        simp only [if_neg hpush, List.length_nil, Nat.zero_sub, if_pos hlen0]
        rw [if_pos (by simp)]
        rw [jsSetElem]
        simp
      · exfalso
        apply hpush
        rw [hr, getLastD_take h1 (le_of_lt hlt), getLastD_eq_getElem hne]
        exact (List.pairwise_iff_getElem.mp hs) _ _ _ _ (by omega)
  rw [hlen] at hstep
  exact hstep

/-- Keyframe-skip correction (lines 1658-1661): when a tick jumps past the
next expected keyframe id, the current frame handed to the actor update is
forced back to that first skipped id, and the reached list is extended by
exactly that id. -/
theorem updateStateStep_correction (ks : List ℕ) (hs : ks.Pairwise (· < ·))
    (reached : List ℕ) (hr : reached = ks.take reached.length)
    (hlt : reached.length < ks.length) (cf : ℕ)
    (hskip : ks[reached.length] < prevKeyframe ks cf) :
    (updateStateStep ks reached cf).2 = ks[reached.length] ∧
    (updateStateStep ks reached cf).1 = ks.take (reached.length + 1) := by
  have hpush : reached.getLast?.getD 0 < prevKeyframe ks cf := by
    rcases Nat.eq_zero_or_pos reached.length with h0 | h1
    · have hre : reached = [] := List.length_eq_zero.mp h0
      subst hre
      simp only [List.getLast?_nil, Option.getD_none]
      omega
    · rw [hr, getLastD_take h1 (le_of_lt hlt)]
      have hmono : ks.get ⟨reached.length - 1, by omega⟩ < ks[reached.length] :=
        (List.pairwise_iff_getElem.mp hs) _ _ _ _ (by omega)
      omega
  simp only [updateStateStep, if_pos hpush]
  have hidx : (reached ++ [prevKeyframe ks cf]).length - 1 = reached.length := by simp
  rw [hidx, if_pos hlt]
  have hget : ks.get? reached.length = some ks[reached.length] := by
    rw [List.get?_eq_getElem?, List.getElem?_eq_getElem hlt]
  have hr1 : (reached ++ [prevKeyframe ks cf]).get? reached.length =
      some (prevKeyframe ks cf) := by
    rw [List.get?_eq_getElem?]
    exact List.getElem?_concat_length reached _
  rw [hget, hr1]
  simp only [Option.getD_some]
  rw [if_pos (by simp [Nat.ne_of_gt hskip])]
  refine ⟨rfl, ?_⟩
  rw [jsSetElem]
  rw [if_pos (by simp), set_append_last]
  rw [List.take_succ, List.getElem?_eq_getElem hlt, ← hr]
  rfl

/-- C1: for every engine with a non-empty sorted list of distinct keyframe
ids, over one full animation loop of the tick driver (any sequence of tick
times, i.e. any sequence of computed current frames), the reached-keyframe
list is always an initial segment of the sorted id list (hence its entries
appear in increasing order with no id skipped), a completed loop (reached
list as long as the id list, the restart condition of line 1590) has
reached exactly the sorted list of all distinct keyframe ids, each tick
past the end extends coverage by exactly the next expected id, and when a
tick jumps past a keyframe the current frame is forced back to the first
skipped keyframe id before actors are updated (lines 1645-1661). -/
theorem tick_driver_monotonic_coverage (ks : List ℕ) (hne : ks ≠ [])
    (hs : ks.Pairwise (· < ·)) :
    (∀ cfs : List ℕ, runTicks ks cfs [] = ks.take (runTicks ks cfs []).length) ∧
    (∀ cfs : List ℕ, (runTicks ks cfs []).length = ks.length → runTicks ks cfs [] = ks) ∧
    (∀ reached cf, reached = ks.take reached.length → reached.length < ks.length →
        ks.getLast?.getD 0 < cf →
        (updateStateStep ks reached cf).1 = ks.take (reached.length + 1)) ∧
    (∀ reached cf (_ : reached = ks.take reached.length)
        (hlt : reached.length < ks.length), ks[reached.length] < prevKeyframe ks cf →
        (updateStateStep ks reached cf).2 = ks[reached.length]) := by
  refine ⟨fun cfs => runTicks_take ks hne hs cfs [] rfl, fun cfs h => ?_,
    fun reached cf hr hlt hcf => updateStateStep_progress ks hne hs reached hr hlt cf hcf,
    fun reached cf hr hlt hskip =>
      (updateStateStep_correction ks hs reached hr hlt cf hskip).1⟩
  have h2 := runTicks_take ks hne hs cfs [] rfl
  rw [h, List.take_length] at h2
  exact h2

/-- C1 witness: keyframe ids 0, 10, 20 with coarse ticks whose frames jump
straight past the end; the loop still reaches exactly [0, 10, 20]. -/
theorem tick_driver_monotonic_coverage_witness :
    runTicks [0, 10, 20] [25, 26, 27] [] = [0, 10, 20] :=
  (tick_driver_monotonic_coverage [0, 10, 20] (by decide) (by decide)).2.1
    [25, 26, 27] (by decide)

/-! ### C4: time-literal conversion -/

/-- C4 counterexample: the claim says "Ns" converts to round(N * fps), but
the source truncates with parseInt (line 499).  For "0.135s" at 20 fps the
code yields 2 (truncation of 2.7) while round(0.135 * 20) = 3. -/
theorem getRealKeyframe_truncates_not_rounds :
    getRealKeyframe 20 (.strId 135 1000 (some "s")) = .ok 2 ∧
    round (calcKeyframeS 20 ((135 : ℚ) / 1000)) = 3 ∧ (2 : ℤ) ≠ 3 := by
  refine ⟨rfl, ?_, by decide⟩
  rw [calcKeyframeS, round_eq]
  norm_num

/-- C4 amended: for every non-negative quantifier n/d and frame rate, the
literal "(n/d)s" converts to the truncation ⌊(n/d) * fps⌋ (not the
rounding), "(n/d)ms" converts to ⌊(n/d) * fps / 1000⌋, and a literal with
an unknown unit fails the conversion with the thrown error string. -/
theorem getRealKeyframe_literal_spec (n d fps : ℕ) :
    getRealKeyframe fps (.strId n d (some "s")) =
      .ok ⌊calcKeyframeS fps ((n : ℚ) / d)⌋ ∧
    getRealKeyframe fps (.strId n d (some "ms")) =
      .ok ⌊calcKeyframeMs fps ((n : ℚ) / d)⌋ ∧
    ∀ u : String, u ≠ "s" → u ≠ "ms" →
      getRealKeyframe fps (.strId n d (some u)) =
        .error "Invalid keyframe identifier unit!" := by
  refine ⟨?_, ?_, ?_⟩
  · have h1 : calcKeyframeS fps ((n : ℚ) / d) = ((n * fps : ℕ) : ℚ) / (d : ℚ) := by
      rw [calcKeyframeS]
      push_cast
      rw [div_mul_eq_mul_div]
    rw [getRealKeyframe, if_neg (by decide), if_pos rfl, h1,
      Rat.floor_natCast_div_natCast, Int.ofNat_tdiv]
    exact congrArg Except.ok
      (Int.tdiv_eq_ediv (Int.ofNat_nonneg _) (Int.ofNat_nonneg _)).symm
  · have h1 : calcKeyframeMs fps ((n : ℚ) / d) =
        ((n * fps : ℕ) : ℚ) / ((1000 * d : ℕ) : ℚ) := by
      rw [calcKeyframeMs]
      push_cast
      rw [div_mul_eq_mul_div, div_div, mul_comm (d : ℚ) 1000]
    rw [getRealKeyframe, if_pos rfl, h1, Rat.floor_natCast_div_natCast, Int.ofNat_tdiv]
    exact congrArg Except.ok
      (Int.tdiv_eq_ediv (Int.ofNat_nonneg _) (Int.ofNat_nonneg _)).symm
  · intro u hu1 hu2
    rw [getRealKeyframe, if_neg hu2, if_neg hu1]

/-- C4 witness: "0.5s" at 20 fps resolves to keyframe 10, and an unknown
unit fails. -/
theorem getRealKeyframe_literal_spec_witness :
    getRealKeyframe 20 (.strId 1 2 (some "s")) = .ok ⌊calcKeyframeS 20 ((1 : ℚ) / 2)⌋ ∧
    getRealKeyframe 20 (.strId 1 2 (some "x")) =
      .error "Invalid keyframe identifier unit!" :=
  ⟨(getRealKeyframe_literal_spec 1 2 20).1,
   (getRealKeyframe_literal_spec 1 2 20).2.2 "x" (by decide) (by decide)⟩

/-! ### C2, C3, C6: property interpolation -/

theorem kapiTweenLookup_empty : kapiTweenLookup "" = none := rfl

theorem kapiTweenLookup_linear : kapiTweenLookup "linear" = some kapiLinear := rfl

/-- The linear easing formula written in the from/to shape the spec
uses. -/
theorem applyEase_linear (fromValue toValue fromKeyframe toKeyframe currentFrame : ℚ)
    (h1 : fromKeyframe ≤ currentFrame) (h2 : toKeyframe ≠ fromKeyframe) :
    applyEase "linear" fromKeyframe toKeyframe fromValue toValue currentFrame =
      some (fromValue + (toValue - fromValue) * (currentFrame - fromKeyframe) /
        (toKeyframe - fromKeyframe)) := by
  rw [applyEase, if_pos h1, if_neg (sub_ne_zero.mpr h2), kapiTweenLookup_linear]
  simp only [Option.getD_some]
  refine congrArg some ?_
  rw [kapiLinear]
  ring

/-- C2: basic tween - an actor with x = 0 at keyframe 0 and x = 100 at
keyframe 10 under linear easing resolves x = 50 at current frame 5
(computed through the whole per-property pipeline with a clear cache), and
in general linear easing returns fromValue + (toValue - fromValue) *
(currentFrame - fromKeyframe) / (toKeyframe - fromKeyframe). -/
theorem linear_tween_basic :
    (∀ fromValue toValue fromKeyframe toKeyframe currentFrame : ℚ,
        fromKeyframe ≤ currentFrame → toKeyframe ≠ fromKeyframe →
        applyEase "linear" fromKeyframe toKeyframe fromValue toValue currentFrame =
          some (fromValue + (toValue - fromValue) * (currentFrame - fromKeyframe) /
            (toKeyframe - fromKeyframe))) ∧
    getActorStateProp ⟨.num 0, [0, 10], [.num 0, .num 100]⟩ 10 "" none none 5 =
      some (.num 50) := by
  constructor
  · exact applyEase_linear
  · norm_num [getActorStateProp, getLatestKeyframeId, lastIdxLt, getNextKeyframeId,
      calcCurrentFrameProp, kapiTweenLookup_empty, kapiTweenLookup_linear, isDynamicP,
      isKeyframeableProp, jsTypeof, applyEase, kapiLinear, numVal]
    intro h
    exact JsType.noConfusion h

/-- C2 witness: the linear formula at the claim's concrete scenario. -/
theorem linear_tween_basic_witness :
    applyEase "linear" 0 10 0 100 5 = some (0 + (100 - 0) * (5 - 0) / (10 - 0)) :=
  linear_tween_basic.1 0 100 0 10 5 (by norm_num) (by norm_num)

theorem jsType_number_ne_string : (JsType.number = JsType.string) = False := by
  simp only [eq_iff_iff, iff_false]
  exact fun h => JsType.noConfusion h

/-- C3: relative-modifier round trip - an actor with x = 10 at keyframe 0
and x = "+=5" at keyframes K and 2K resolves x = 15 at current frame K and
x = 20 at current frame 2K: each modifier is applied to the previously
resolved concrete value, found by walking the keyframe history backward to
the nearest static value (_calculateUncachedProperty). -/
theorem relative_modifier_roundtrip (K : ℕ) (hK : 0 < K) :
    getActorStateProp ⟨.num 10, [0, K, 2 * K], [.num 10, .mod .addOp 5, .mod .addOp 5]⟩
        (2 * K) "" none none K = some (.num 15) ∧
    getActorStateProp ⟨.num 10, [0, K, 2 * K], [.num 10, .mod .addOp 5, .mod .addOp 5]⟩
        (2 * K) "" none none (2 * K) = some (.num 20) := by
  have hKQ : (K : ℚ) ≠ 0 := Nat.cast_ne_zero.mpr hK.ne'
  have hK0 : (0 : ℚ) ≤ (K : ℚ) := Nat.cast_nonneg K
  have hgl : ([0, K, 2 * K] : List ℕ).getLast?.getD 0 = 2 * K := rfl
  constructor
  · have hli : lastIdxLt K [0, K, 2 * K] = some 0 := by
      simp [lastIdxLt, hK, lt_self_iff_false, (by omega : ¬ 2 * K < K)]
    have hlat : getLatestKeyframeId K [0, K, 2 * K] = 0 := by
      rw [getLatestKeyframeId, if_neg hK.ne', hgl, if_neg (by omega), hli]
      rfl
    have hease : applyEase "linear" 0 (K : ℚ) 10 15 (K : ℚ) = some 15 := by
      rw [applyEase_linear 10 15 0 (K : ℚ) (K : ℚ) (by positivity) hKQ]
      refine congrArg some ?_
      simp only [sub_zero]
      rw [mul_div_assoc, div_self hKQ]
      norm_num
    norm_num [getActorStateProp, hlat, getNextKeyframeId, calcCurrentFrameProp,
      kapiTweenLookup_empty, kapiTweenLookup_linear, isDynamicP, isKeyframeableProp,
      jsTypeof, applyModifierOp, numVal, hease, jsType_number_ne_string]
  · have hli : lastIdxLt (2 * K) [0, K, 2 * K] = some 1 := by
      simp [lastIdxLt, lt_self_iff_false, (by omega : K < 2 * K), (by omega : 0 < 2 * K)]
    have hlat : getLatestKeyframeId (2 * K) [0, K, 2 * K] = 1 := by
      rw [getLatestKeyframeId, if_neg (by omega), hgl, if_neg (by omega), hli]
      rfl
    have huncached : calculateUncachedProperty
        ⟨.num 10, [0, K, 2 * K], [.num 10, .mod .addOp 5, .mod .addOp 5]⟩ 1 = .num 15 := by
      norm_num [calculateUncachedProperty, resolveChain, applyModifierOp]
    have hne2K : (2 * (K : ℚ)) ≠ (K : ℚ) := by
      intro hcon
      apply hKQ
      linarith
    have hd : (2 * (K : ℚ)) - (K : ℚ) ≠ 0 := sub_ne_zero.mpr hne2K
    have hease : applyEase "linear" ((K : ℚ)) (2 * (K : ℚ)) 15 20 (2 * (K : ℚ)) =
        some 20 := by
      rw [applyEase_linear 15 20 _ _ _ (by linarith) hne2K]
      refine congrArg some ?_
      rw [mul_div_assoc, div_self hd]
      norm_num
    norm_num [getActorStateProp, hlat, getNextKeyframeId, calcCurrentFrameProp,
      kapiTweenLookup_empty, kapiTweenLookup_linear, isDynamicP, isKeyframeableProp,
      jsTypeof, applyModifierOp, numVal, huncached, hease, jsType_number_ne_string]

/-- C3 witness: the round trip at K = 5. -/
theorem relative_modifier_roundtrip_witness :
    getActorStateProp ⟨.num 10, [0, 5, 2 * 5], [.num 10, .mod .addOp 5, .mod .addOp 5]⟩
        (2 * 5) "" none none 5 = some (.num 15) :=
  (relative_modifier_roundtrip 5 (by decide)).1

/-- C6: color blend - color "#000000" at keyframe 0 and "#ffffff" at
keyframe 10 are canonicalized by normalization to rgb triples, and the
resolved color at current frame 5 is the string "rgb(127,127,127)": each
channel is eased independently and floored (floor of 127.5) before
reassembly. -/
theorem color_blend_midpoint :
    normalizeColorProp (.str "#000000") = .str "rgb(0,0,0)" ∧
    normalizeColorProp (.str "#ffffff") = .str "rgb(255,255,255)" ∧
    getActorStateProp ⟨.str "rgb(0,0,0)", [0, 10],
        [.str "rgb(0,0,0)", .str "rgb(255,255,255)"]⟩ 10 "" none none 5 =
      some (.str "rgb(127,127,127)") := by
  refine ⟨rfl, rfl, ?_⟩
  have he : applyEase "linear" 0 10 0 255 5 = some (255 * 5 / 10) := by
    rw [applyEase, if_pos (by norm_num), if_neg (by norm_num), kapiTweenLookup_linear]
    simp only [Option.getD_some, kapiLinear]
    norm_num
  have hfloor : (⌊(255 * 5 / 10 : ℚ)⌋ : ℤ) = 127 := by norm_num
  have hch : jsFloorStr (applyEase "linear" 0 10 0 255 5) = "127" := by
    rw [he, jsFloorStr, hfloor]
    decide
  have hblend : blendColorStrings "linear" 0 10 "rgb(0,0,0)" "rgb(255,255,255)" 5 =
      "rgb(127,127,127)" := by
    simp only [blendColorStrings, show getRGBArr "rgb(0,0,0)" = Sum.inl [0, 0, 0] from rfl,
      show getRGBArr "rgb(255,255,255)" = Sum.inl [255, 255, 255] from rfl,
      show List.range ([0, 0, 0] : List ℕ).length = [0, 1, 2] from rfl, List.map,
      List.get?, Option.getD_some, Nat.cast_ofNat, Nat.cast_zero, hch]
    decide
  norm_num [getActorStateProp, getLatestKeyframeId, lastIdxLt, getNextKeyframeId,
    calcCurrentFrameProp, kapiTweenLookup_empty, kapiTweenLookup_linear, isDynamicP,
    show isKeyframeableProp (.str "rgb(0,0,0)") = true from rfl,
    show isKeyframeableProp (.str "rgb(255,255,255)") = true from rfl,
    jsTypeof, strVal, hblend]

end Kapi

namespace Kapi

theorem foldl_pres {β γ : Type} (P : γ → Prop) (step : γ → β → γ) (l : List β)
    (hstep : ∀ acc x, P acc → P (step acc x)) :
    ∀ init, P init → P (l.foldl step init) := by
  induction l with
  | nil => intro init h; exact h
  | cons x rest ih =>
      intro init h
      rw [List.foldl_cons]
      exact ih _ (hstep _ _ h)

theorem hasKey_aset_of {α β : Type} [DecidableEq α] {k j : α} {v : β} {l : List (α × β)}
    (h : hasKey j l = true) : hasKey j (aset k v l) = true := by
  induction l with
  | nil => simp [hasKey, alookup, aset] at h
  | cons p rest ih =>
      obtain ⟨k1, v1⟩ := p
      by_cases h1 : k1 = k
      · subst h1
        simp only [aset, if_pos rfl]
        by_cases h2 : k1 = j
        · simp [hasKey, alookup, h2]
        · simp only [hasKey, alookup, if_neg h2] at h ⊢
          exact h
      · simp only [aset, if_neg h1]
        by_cases h2 : k1 = j
        · simp [hasKey, alookup, h2]
        · simp only [hasKey, alookup, if_neg h2] at h ⊢
          exact ih h

theorem hasKey_aset_self {α β : Type} [DecidableEq α] (k : α) (v : β) (l : List (α × β)) :
    hasKey k (aset k v l) = true := by
  induction l with
  | nil => simp [hasKey, alookup, aset]
  | cons p rest ih =>
      obtain ⟨k1, v1⟩ := p
      by_cases h1 : k1 = k
      · simp [aset, hasKey, alookup, h1]
      · simp only [aset, if_neg h1, hasKey, alookup, if_neg h1]
        exact ih

theorem hasKey_aset_cases {α β : Type} [DecidableEq α] {k j : α} {v : β} {l : List (α × β)}
    (h : hasKey j (aset k v l) = true) : j = k ∨ hasKey j l = true := by
  induction l with
  | nil =>
      simp only [aset, hasKey, alookup] at h
      by_cases h1 : k = j
      · exact Or.inl h1.symm
      · rw [if_neg h1] at h
        simp at h
  | cons p rest ih =>
      obtain ⟨k1, v1⟩ := p
      by_cases h1 : k1 = k
      · subst h1
        simp only [aset, if_pos rfl, hasKey, alookup] at h
        by_cases h2 : k1 = j
        · exact Or.inl h2.symm
        · rw [if_neg h2] at h
          right
          simp only [hasKey, alookup, if_neg h2]
          exact h
      · simp only [aset, if_neg h1, hasKey, alookup] at h
        by_cases h2 : k1 = j
        · right
          simp [hasKey, alookup, h2]
        · rw [if_neg h2] at h
          rcases ih h with h3 | h3
          · exact Or.inl h3
          · right
            simp only [hasKey, alookup, if_neg h2]
            exact h3

theorem hasKey_aremove_of {α β : Type} [DecidableEq α] {k j : α} {l : List (α × β)}
    (hne : j ≠ k) (h : hasKey j l = true) : hasKey j (aremove k l) = true := by
  induction l with
  | nil => simp [hasKey, alookup] at h
  | cons p rest ih =>
      obtain ⟨k1, v1⟩ := p
      by_cases h1 : k1 = k
      · subst h1
        simp only [aremove, if_pos rfl]
        simp only [hasKey, alookup] at h
        rw [if_neg (fun hcon => hne hcon.symm)] at h
        exact h
      · simp only [aremove, if_neg h1]
        by_cases h2 : k1 = j
        · simp [hasKey, alookup, h2]
        · simp only [hasKey, alookup, if_neg h2] at h ⊢
          exact ih h

theorem hasKey_of_aremove {α β : Type} [DecidableEq α] {k j : α} {l : List (α × β)}
    (h : hasKey j (aremove k l) = true) : hasKey j l = true := by
  induction l with
  | nil => simp [aremove, hasKey, alookup] at h
  | cons p rest ih =>
      obtain ⟨k1, v1⟩ := p
      by_cases h1 : k1 = k
      · subst h1
        simp only [aremove, if_pos rfl] at h
        by_cases h2 : k1 = j
        · simp [hasKey, alookup, h2]
        · simp only [hasKey, alookup, if_neg h2]
          exact h
      · simp only [aremove, if_neg h1] at h
        by_cases h2 : k1 = j
        · simp [hasKey, alookup, h2]
        · simp only [hasKey, alookup, if_neg h2] at h ⊢
          exact ih h

theorem hasKey_exists_mem {α β : Type} [DecidableEq α] {j : α} {l : List (α × β)}
    (h : hasKey j l = true) : ∃ v, (j, v) ∈ l := by
  induction l with
  | nil => simp [hasKey, alookup] at h
  | cons p rest ih =>
      obtain ⟨k1, v1⟩ := p
      by_cases h2 : k1 = j
      · subst h2
        exact ⟨v1, List.mem_cons_self _ _⟩
      · simp only [hasKey, alookup, if_neg h2] at h
        obtain ⟨v, hv⟩ := ih h
        exact ⟨v, List.mem_cons_of_mem _ hv⟩

theorem mem_hasKey {α β : Type} [DecidableEq α] {j : α} {v : β} {l : List (α × β)}
    (h : (j, v) ∈ l) : hasKey j l = true := by
  induction l with
  | nil => cases h
  | cons p rest ih =>
      obtain ⟨k1, v1⟩ := p
      by_cases h2 : k1 = j
      · simp [hasKey, alookup, h2]
      · simp only [hasKey, alookup, if_neg h2]
        rcases List.mem_cons.mp h with heq | hmem
        · cases heq
          exact absurd rfl h2
        · exact ih hmem

end Kapi

namespace Kapi

theorem removeStage3_keyframes (s : EngineState) (a k : ℕ) :
    (removeStage3 s a k).keyframes = s.keyframes := by
  rw [removeStage3]
  split
  · split
    · rfl
    · rfl
  · rfl

theorem removeStage4_keyframes (s : EngineState) (a k : ℕ) :
    (removeStage4 s a k).keyframes = s.keyframes := by
  rw [removeStage4]
  split
  · rfl
  · rfl

theorem removeStage1_hasKeyZero {s : EngineState} {a k : ℕ}
    (h : hasKey 0 s.keyframes = true) : hasKey 0 (removeStage1 s a k).keyframes = true :=
  hasKey_aset_of h

theorem removeStage1_keySubset {s : EngineState} {a k j : ℕ}
    (hk : hasKey k s.keyframes = true)
    (h : hasKey j (removeStage1 s a k).keyframes = true) : hasKey j s.keyframes = true := by
  rcases hasKey_aset_cases h with rfl | h2
  · exact hk
  · exact h2

theorem removeStage2_hasKeyZero {s : EngineState} {k : ℕ}
    (h : hasKey 0 s.keyframes = true) : hasKey 0 (removeStage2 s k).keyframes = true := by
  simp only [removeStage2]
  by_cases hcond : (¬ ((alookup k s.keyframes).getD []) ≠ [] ∧ k ≠ 0)
  · rw [if_pos hcond]
    exact hasKey_aremove_of (fun hc => hcond.2 hc.symm) h
  · rw [if_neg hcond]
    exact h

theorem removeStage2_keySubset {s : EngineState} {k j : ℕ}
    (h : hasKey j (removeStage2 s k).keyframes = true) : hasKey j s.keyframes = true := by
  simp only [removeStage2] at h
  by_cases hcond : (¬ ((alookup k s.keyframes).getD []) ≠ [] ∧ k ≠ 0)
  · rw [if_pos hcond] at h
    exact hasKey_of_aremove h
  · rw [if_neg hcond] at h
    exact h

theorem cascade_pres (recFn : EngineState → ℕ → ℕ → EngineState) (a k : ℕ)
    (P : EngineState → Prop)
    (hrec : ∀ s a1 k1, P s → P (recFn s a1 k1)) (l : List ℕ) :
    ∀ p : EngineState × Bool, P p.1 → P ((l.foldl (cascadeStep recFn a k) p).1) := by
  induction l with
  | nil => intro p hp; exact hp
  | cons x rest ih =>
      intro p hp
      rw [List.foldl_cons]
      apply ih
      rw [cascadeStep]
      split
      · split
        · exact hrec _ _ _ hp
        · exact hp
      · exact hp

theorem cascade_subset (recFn : EngineState → ℕ → ℕ → EngineState) (a k : ℕ)
    (hrec : ∀ s a1 k1 j, hasKey j (recFn s a1 k1).keyframes = true →
      hasKey j s.keyframes = true) (l : List ℕ) :
    ∀ (p : EngineState × Bool) (j : ℕ),
      hasKey j ((l.foldl (cascadeStep recFn a k) p).1).keyframes = true →
      hasKey j p.1.keyframes = true := by
  induction l with
  | nil => intro p j h; exact h
  | cons x rest ih =>
      intro p j h
      rw [List.foldl_cons] at h
      have h2 := ih _ j h
      rw [cascadeStep] at h2
      revert h2
      split
      · split
        · intro h2
          exact hrec _ _ _ _ h2
        · intro h2
          exact h2
      · intro h2
        exact h2

theorem removeKeyframeBody_hasKeyZero (recFn : EngineState → ℕ → ℕ → EngineState)
    (hrec : ∀ s a k, hasKey 0 s.keyframes = true → hasKey 0 (recFn s a k).keyframes = true)
    (s : EngineState) (a k : ℕ) (h : hasKey 0 s.keyframes = true) :
    hasKey 0 (removeKeyframeBody recFn s a k).keyframes = true := by
  simp only [removeKeyframeBody]
  split
  · have h4 : hasKey 0 (removeStage4 (removeStage3 (removeStage2 (removeStage1 s a k) k)
        a k) a k).keyframes = true := by
      rw [removeStage4_keyframes, removeStage3_keyframes]
      exact removeStage2_hasKeyZero (removeStage1_hasKeyZero h)
    split
    · exact cascade_pres recFn a k (fun st => hasKey 0 st.keyframes = true) hrec _ _ h4
    · exact cascade_pres recFn a k (fun st => hasKey 0 st.keyframes = true) hrec _ _ h4
  · exact h

theorem removeKeyframeBody_keySubset (recFn : EngineState → ℕ → ℕ → EngineState)
    (hrec : ∀ s a k j, hasKey j (recFn s a k).keyframes = true →
      hasKey j s.keyframes = true)
    (s : EngineState) (a k : ℕ) (j : ℕ)
    (h : hasKey j (removeKeyframeBody recFn s a k).keyframes = true) :
    hasKey j s.keyframes = true := by
  simp only [removeKeyframeBody] at h
  revert h
  split
  case isTrue hc =>
    have hkk : hasKey k s.keyframes = true := by
      rw [hasKey]
      cases hl : alookup k s.keyframes with
      | some m => rfl
      | none =>
          rw [hl] at hc
          simp at hc
    intro h
    have h2 : hasKey j (removeStage4 (removeStage3 (removeStage2 (removeStage1 s a k) k)
        a k) a k).keyframes = true := by
      revert h
      split
      · intro h
        exact cascade_subset recFn a k hrec _ _ j h
      · intro h
        exact cascade_subset recFn a k hrec _ _ j h
    rw [removeStage4_keyframes, removeStage3_keyframes] at h2
    exact removeStage1_keySubset hkk (removeStage2_keySubset h2)
  case isFalse hc =>
    intro h
    exact h

theorem removeKeyframeFuel_hasKeyZero (fuel : ℕ) :
    ∀ (s : EngineState) (a k : ℕ), hasKey 0 s.keyframes = true →
      hasKey 0 (removeKeyframeFuel fuel s a k).keyframes = true := by
  induction fuel with
  | zero => intro s a k h; exact h
  | succ n ih =>
      intro s a k h
      rw [removeKeyframeFuel]
      exact removeKeyframeBody_hasKeyZero _ ih s a k h

theorem removeKeyframeFuel_keySubset (fuel : ℕ) :
    ∀ (s : EngineState) (a k j : ℕ),
      hasKey j (removeKeyframeFuel fuel s a k).keyframes = true →
      hasKey j s.keyframes = true := by
  induction fuel with
  | zero => intro s a k j h; exact h
  | succ n ih =>
      intro s a k j h
      rw [removeKeyframeFuel] at h
      exact removeKeyframeBody_keySubset _ ih s a k j h

theorem updateLiveCopies_hasKey (s : EngineState) (j : ℕ)
    (h : hasKey j s.keyframes = true) :
    hasKey j (updateLiveCopies s).keyframes = true := by
  rw [updateLiveCopies]
  apply foldl_pres (fun kfs => hasKey j kfs = true)
  · intro acc p hacc
    apply foldl_pres (fun kfs => hasKey j kfs = true)
    · intro acc2 q hacc2
      split
      · exact hasKey_aset_of hacc2
      · exact hacc2
    · exact hacc
  · exact h

end Kapi

namespace Kapi

theorem createKeyframe_hasKeyZero (s : EngineState) (a : ℕ) (ident : KfIdentifier) (ki : ℤ)
    (hres : getRealKeyframe s.fps ident = .ok ki) (hki : 0 ≤ ki)
    (ha : (alookup a s.actorIndex).isSome = true) :
    hasKey 0 (createKeyframe s a ident).keyframes = true := by
  have ha2 : (alookup a s.actorIndex).isNone = false := by
    cases hl : alookup a s.actorIndex with
    | some v => rfl
    | none =>
        rw [hl] at ha
        simp at ha
  simp only [createKeyframe, hres, ha2]
  rw [if_neg (by simp)]
  rw [if_neg (not_lt.mpr hki)]
  by_cases hz : 0 < ki.toNat ∧ ¬ (hasKey 0 s.keyframes = true)
  · rw [if_pos hz]
    apply updateLiveCopies_hasKey
    split
    · exact hasKey_aset_of (hasKey_aset_self 0 [] s.keyframes)
    · exact hasKey_aset_of (hasKey_aset_self 0 [] s.keyframes)
  · rw [if_neg hz]
    by_cases h0 : hasKey 0 s.keyframes = true
    · apply updateLiveCopies_hasKey
      split
      · exact hasKey_aset_of h0
      · exact hasKey_aset_of h0
    · have hk0 : ki.toNat = 0 := by
        rcases Nat.eq_zero_or_pos ki.toNat with h | h
        · exact h
        · exact absurd ⟨h, h0⟩ hz
      rw [hk0]
      apply updateLiveCopies_hasKey
      split
      · exact hasKey_aset_self 0 _ _
      · exact hasKey_aset_self 0 _ _

theorem createKeyframe_inv (s : EngineState) (a : ℕ) (ident : KfIdentifier)
    (hinv : kfZeroInvariant s) : kfZeroInvariant (createKeyframe s a ident) := by
  by_cases ha : (alookup a s.actorIndex).isSome = true
  · cases hres : getRealKeyframe s.fps ident with
    | error e =>
        have heq : createKeyframe s a ident = s := by
          simp only [createKeyframe, hres]
          split
          · rfl
          · rfl
        rw [heq]
        exact hinv
    | ok ki =>
        by_cases hki : ki < 0
        · have heq : createKeyframe s a ident = s := by
            simp only [createKeyframe, hres]
            rw [if_pos hki]
            split
            · rfl
            · rfl
          rw [heq]
          exact hinv
        · exact fun _ => createKeyframe_hasKeyZero s a ident ki hres (not_lt.mp hki) ha
  · have ha2 : (alookup a s.actorIndex).isNone = true := by
      cases hl : alookup a s.actorIndex with
      | some v =>
          rw [hl] at ha
          simp at ha
      | none => rfl
    have heq : createKeyframe s a ident = s := by
      simp only [createKeyframe, ha2]
      rw [if_pos trivial]
    rw [heq]
    exact hinv

theorem removeKeyframe_inv (s : EngineState) (a k : ℕ)
    (hinv : kfZeroInvariant s) : kfZeroInvariant (removeKeyframe s a k) := by
  by_cases h0 : hasKey 0 s.keyframes = true
  · exact fun _ => removeKeyframeFuel_hasKeyZero _ s a k h0
  · intro hex
    obtain ⟨p, hp, hppos⟩ := hex
    obtain ⟨j, v⟩ := p
    have hkj := mem_hasKey hp
    have hkjs := removeKeyframeFuel_keySubset _ s a k j hkj
    obtain ⟨w, hw⟩ := hasKey_exists_mem hkjs
    exact absurd (hinv ⟨(j, w), hw, hppos⟩) h0

theorem applyMutations_inv (muts : List TimelineMutation) :
    ∀ s : EngineState, kfZeroInvariant s → kfZeroInvariant (applyMutations s muts) := by
  induction muts with
  | nil => intro s h; exact h
  | cons m rest ih =>
      intro s h
      rw [applyMutations, List.foldl_cons]
      apply ih
      cases m with
      | createKf a ident => exact createKeyframe_inv s a ident h
      | removeKf a k => exact removeKeyframe_inv s a k h

/-- C5: after every sequence of keyframe creations and removals, keyframe
id 0 exists whenever any keyframe id greater than 0 exists; every
successful creation (auto-creating keyframe 0 if absent) leaves keyframe 0
present, and a removal never deletes keyframe 0, even when no actor has
state left at it. -/
theorem keyframe_zero_always_exists :
    (∀ (fps : ℕ) (actors : List ℕ) (muts : List TimelineMutation),
        kfZeroInvariant (applyMutations (initEngine fps actors) muts)) ∧
    (∀ (s : EngineState) (a : ℕ) (ident : KfIdentifier) (ki : ℤ),
        getRealKeyframe s.fps ident = .ok ki → 0 ≤ ki →
        (alookup a s.actorIndex).isSome = true →
        hasKey 0 (createKeyframe s a ident).keyframes = true) ∧
    (∀ (s : EngineState) (a k : ℕ), hasKey 0 s.keyframes = true →
        hasKey 0 (removeKeyframe s a k).keyframes = true) := by
  refine ⟨fun fps actors muts => applyMutations_inv muts _ ?_,
    fun s a ident ki hres hki ha => createKeyframe_hasKeyZero s a ident ki hres hki ha,
    fun s a k h0 => removeKeyframeFuel_hasKeyZero _ s a k h0⟩
  intro hex
  obtain ⟨p, hp, hppos⟩ := hex
  cases hp

/-- C5 witness: creating keyframe 5 for an actor on a fresh engine creates
keyframe 0 as well, and removing the actor from keyframe 5 keeps
keyframe 0. -/
theorem keyframe_zero_always_exists_witness :
    hasKey 0 (createKeyframe (initEngine 20 [1]) 1 (.numId 5)).keyframes = true ∧
    hasKey 0 (removeKeyframe (createKeyframe (initEngine 20 [1]) 1 (.numId 5)) 1
      5).keyframes = true :=
  ⟨keyframe_zero_always_exists.2.1 (initEngine 20 [1]) 1 (.numId 5) 5 rfl (by decide)
      (by decide),
   keyframe_zero_always_exists.2.2 (createKeyframe (initEngine 20 [1]) 1 (.numId 5)) 1 5
      (by decide)⟩

end Kapi

namespace Kapi

/-! ### C7: framerate rescale -/

/-- C7 counterexample: for an engine holding keyframes at ids 0, 10, 20 at
20 fps that were specified with plain numeric identifiers, framerate(40)
leaves the keyframe ids at 0, 10, 20 - not 0, 20, 40 - because framerate()
re-resolves every keyframe from its originally supplied identifier and a
plain number resolves to itself at any rate; consequently the wall-clock
duration (lastKeyframeId * 1000 / fps) halves from 1000ms to 500ms instead
of being preserved. -/
theorem framerate_numeric_ids_not_rescaled :
    framerateNumericEngine.fps = 20 ∧
    framerateNumericEngine.keyframeIds = [0, 10, 20] ∧
    animationDuration framerateNumericEngine = some 1000 ∧
    (framerate framerateNumericEngine 40).fps = 40 ∧
    (framerate framerateNumericEngine 40).keyframeIds ≠ [0, 20, 40] ∧
    (framerate framerateNumericEngine 40).keyframeIds = [0, 10, 20] ∧
    animationDuration (framerate framerateNumericEngine 40) = some 500 := by
  refine ⟨by decide, by decide, ?_, by decide, by decide, by decide, ?_⟩
  · have h1 : lastKeyframe framerateNumericEngine = some 20 := by decide
    have h2 : framerateNumericEngine.fps = 20 := by decide
    rw [animationDuration, h1, h2]
    norm_num [Option.map, Option.bind]
  · have h1 : lastKeyframe (framerate framerateNumericEngine 40) = some 20 := by decide
    have h2 : (framerate framerateNumericEngine 40).fps = 40 := by decide
    rw [animationDuration, h1, h2]
    norm_num [Option.map, Option.bind]

/-- C7 amended: framerate() re-resolves every keyframe from its originally
supplied identifier at the new rate, so the claimed rescale holds for
keyframes specified as time literals: for an engine holding keyframes at
ids 0, 10, 20 at 20 fps specified as 0, "0.5s", "1s", framerate(40) yields
keyframes at ids 0, 20, 40 at 40 fps, and the wall-clock duration
(lastKeyframeId * 1000 / fps) is unchanged at 1000ms. -/
theorem framerate_rescales_literal_keyframes :
    framerateLiteralEngine.fps = 20 ∧
    framerateLiteralEngine.keyframeIds = [0, 10, 20] ∧
    animationDuration framerateLiteralEngine = some 1000 ∧
    (framerate framerateLiteralEngine 40).fps = 40 ∧
    (framerate framerateLiteralEngine 40).keyframeIds = [0, 20, 40] ∧
    animationDuration (framerate framerateLiteralEngine 40) = some 1000 := by
  refine ⟨by decide, by decide, ?_, by decide, by decide, ?_⟩
  · have h1 : lastKeyframe framerateLiteralEngine = some 20 := by decide
    have h2 : framerateLiteralEngine.fps = 20 := by decide
    rw [animationDuration, h1, h2]
    norm_num [Option.map, Option.bind]
  · have h1 : lastKeyframe (framerate framerateLiteralEngine 40) = some 40 := by decide
    have h2 : (framerate framerateLiteralEngine 40).fps = 40 := by decide
    rw [animationDuration, h1, h2]
    norm_num [Option.map, Option.bind]

/-! ### C8: removal of a missing keyframe is a no-op -/

theorem removeKeyframeBody_not_contains (recFn : EngineState → ℕ → ℕ → EngineState)
    (s : EngineState) (a k : ℕ)
    (h : ((alookup k s.keyframes).getD []).contains a = false) :
    removeKeyframeBody recFn s a k = s := by
  rw [removeKeyframeBody, if_neg]
  simpa using h

theorem removeKeyframeFuel_not_contains (fuel : ℕ) (s : EngineState) (a k : ℕ)
    (h : ((alookup k s.keyframes).getD []).contains a = false) :
    removeKeyframeFuel fuel s a k = s := by
  cases fuel with
  | zero => rfl
  | succ n => exact removeKeyframeBody_not_contains _ s a k h

/-- C8: removing an actor from a keyframe id at which it has no stored
state leaves the entire engine state unchanged - the whole state record,
hence the keyframe maps, id lists, per-actor indices and live copies, and
with them the derived last keyframe and animation duration; the failure is
only logged. -/
theorem remove_missing_is_noop (s : EngineState) (a k : ℕ)
    (h : ((alookup k s.keyframes).getD []).contains a = false) :
    removeKeyframe s a k = s ∧
    lastKeyframe (removeKeyframe s a k) = lastKeyframe s ∧
    animationDuration (removeKeyframe s a k) = animationDuration s := by
  have h1 : removeKeyframe s a k = s := removeKeyframeFuel_not_contains _ s a k h
  exact ⟨h1, by rw [h1], by rw [h1]⟩

/-- C8 witness: actor 1 has keyframes 0 and 3 but none at 7; removing
keyframe 7 changes nothing. -/
theorem remove_missing_is_noop_witness :
    ((alookup 7 (createKeyframe (initEngine 20 [1]) 1 (.numId 3)).keyframes).getD
        []).contains 1 = false ∧
    removeKeyframe (createKeyframe (initEngine 20 [1]) 1 (.numId 3)) 1 7 =
      createKeyframe (initEngine 20 [1]) 1 (.numId 3) :=
  ⟨by decide,
   (remove_missing_is_noop (createKeyframe (initEngine 20 [1]) 1 (.numId 3)) 1 7
      (by decide)).1⟩

/-! ### C9: clearQueue on an empty queue -/

/-- C9: clearQueue (lines 882-887) truncates with queue.length = 1
unconditionally.  On a nonempty queue exactly the head (the action in
flight) survives, but on an empty queue the assignment grows the array to
a single undefined slot instead of leaving it empty, contradicting the
claim (and the method's own description): the next tick would then read
properties of undefined. -/
theorem clearQueue_corrupts_empty_queue :
    clearQueue [(some 1 : Option ℕ), some 2, some 3] = [some 1] ∧
    clearQueue ([] : List (Option ℕ)) = [none] ∧
    clearQueue ([] : List (Option ℕ)) ≠ [] := by
  exact ⟨rfl, rfl, by decide⟩

/-! ### C10: gotoFrame wraps modulo the last keyframe -/

/-- C10: for a frame identifier resolving to a nonnegative index n and a
positive last keyframe id L, gotoFrame renders frame n mod L - a value in
[0, L) - rather than n itself; in particular when n = L the rendered frame
is 0, not the final keyframe.  If the engine is playing it is stopped
(isStopped set), and otherwise the playback flags are untouched. -/
theorem gotoFrame_wraps (f : TickFlags) (fps lastKf : ℕ) (ks : List ℕ)
    (ident : KfIdentifier) (n : ℤ) (hres : getRealKeyframe fps ident = .ok n)
    (hn : 0 ≤ n) (hL : 0 < lastKf) :
    (∃ f1 reached,
      gotoFrame f fps lastKf ks ident = some (f1, n % (lastKf : ℤ), reached)) ∧
    (0 ≤ n % (lastKf : ℤ) ∧ n % (lastKf : ℤ) < (lastKf : ℤ)) ∧
    (n = (lastKf : ℤ) →
      ∃ f1 reached, gotoFrame f fps lastKf ks ident = some (f1, 0, reached)) ∧
    (isPlaying f = true →
      (gotoFrame f fps lastKf ks ident).map (fun r => r.1.isStopped) =
        some (some true)) ∧
    (isPlaying f = false →
      (gotoFrame f fps lastKf ks ident).map (fun r => r.1) = some f) := by
  have htmod : n.tmod (lastKf : ℤ) = n % (lastKf : ℤ) :=
    Int.tmod_eq_emod hn (Int.ofNat_nonneg _)
  have hLz : (0 : ℤ) < (lastKf : ℤ) := by exact_mod_cast hL
  have hgo : gotoFrame f fps lastKf ks ident =
      some ((if isPlaying f then { f with isStopped := some true } else f),
        n.tmod (lastKf : ℤ),
        ks.take ((getLatestKeyframeId (n.tmod (lastKf : ℤ)).toNat ks) + 1).toNat) := by
    rw [gotoFrame, hres]
  refine ⟨?_, ⟨Int.emod_nonneg n (ne_of_gt hLz), Int.emod_lt_of_pos n hLz⟩, ?_, ?_, ?_⟩
  · exact ⟨_, _, by rw [hgo, htmod]⟩
  · intro hnl
    exact ⟨_, _, by rw [hgo, htmod, hnl, Int.emod_self]⟩
  · intro hp
    rw [hgo]
    simp [hp]
  · intro hp
    rw [hgo]
    simp [hp]

/-- C10 witness: with last keyframe 20 at 20 fps, going to frame 25 while
stopped renders frame 25 mod 20 = 5. -/
theorem gotoFrame_wraps_witness :
    getRealKeyframe 20 (.numId 25) = .ok 25 ∧
    (∃ f1 reached,
      gotoFrame ⟨some false, some true⟩ 20 20 [0, 10, 20] (.numId 25) =
        some (f1, (25 : ℤ) % ((20 : ℕ) : ℤ), reached)) :=
  ⟨rfl,
   (gotoFrame_wraps ⟨some false, some true⟩ 20 20 [0, 10, 20] (.numId 25) 25 rfl
      (by decide) (by decide)).1⟩

end Kapi
